import Mathlib

/-!
Verification of the adaptive RAG website-ingestion service.

Shallow embedding of the core algorithms of the repository:
* `AdaptiveChunkerService` (src/lib/services/site-detector.service.ts):
  `chunkText`, `chunkByParagraphs`, `chunkBySections`, `chunkByHeadings`;
* `SiteDetectorService.detectSiteType` and `getChunkingStrategy`;
* `RAGService.cosineSimilarity` and the ranking step of `findRelevantChunks`
  (src/lib/services/rag.service.ts);
* the crawl loop of `ScraperService.scrapeWebsite`
  (src/lib/services/scraper.service.ts);
* the chat-turn handler `POST` (src/app/api/chat/[websiteId]/messages/route.ts).

Texts are modelled as `List Char`; JavaScript numbers appearing as sizes and
indices are modelled as `Nat` (all relevant quantities are non-negative
integers); scores and confidences as `ℚ`.  The JS float comparisons
`x > chunkSize * 0.5` and `x > chunkSize * 1.5` are exact in binary floating
point and are modelled by the exact integer comparisons `2*x > cs` and
`2*x > 3*cs`; `x > chunkSize * 0.3` is modelled by the exact rational
comparison `10*x > 3*cs` (the double rounding of `0.3` can differ from the
exact value only when `10*x` and `3*cs` are equal, a boundary no theorem
below depends on).
-/

/-- JavaScript whitespace for `String.prototype.trim` (ASCII part: space, tab,
newline, carriage return, vertical tab, form feed). -/
def isWS (c : Char) : Bool :=
  c == ' ' || c == '\t' || c == '\n' || c == '\r' || c == '\x0b' || c == '\x0c'

/-- `String.prototype.trim`: drop whitespace from both ends. -/
def jsTrim (l : List Char) : List Char :=
  ((l.dropWhile isWS).reverse.dropWhile isWS).reverse

/-- `text.slice(start, end)` for `0 ≤ start ≤ end` (the only use sites). -/
def jsSlice (l : List Char) (s e : Nat) : List Char :=
  (l.take e).drop s

/-- `String.prototype.lastIndexOf(pat)`: the largest index at which `pat`
occurs, `none` when it does not occur (JS returns `-1`). -/
def jsLastIndexOf (l : List Char) (pat : List Char) : Option Nat :=
  ((List.range l.length).filter (fun i => pat.isPrefixOf (l.drop i))).getLast?

/-- `Math.max` on two JS results where `none` encodes `-1`. -/
def optMax : Option Nat → Option Nat → Option Nat
  | none, b => b
  | some a, none => some a
  | some a, some b => some (max a b)

/-- `if (chunk.trim().length > 0) chunks.push(chunk.trim())`. -/
def pushTrim (acc : List (List Char)) (c : List Char) : List (List Char) :=
  if (jsTrim c).isEmpty then acc else acc ++ [jsTrim c]

/-- The `while (startIndex < text.length)` loop shared verbatim by
`RAGService.chunkText` and `AdaptiveChunkerService.chunkByParagraphs`,
as a fuel-indexed recursion; `none` means the fuel ran out, i.e. the JS loop
would still be running after that many iterations. -/
def chunkParasAux (text : List Char) (cs ov : Nat) :
    Nat → Nat → List (List Char) → Option (List (List Char))
  | fuel, start, acc =>
    if start < text.length then
      match fuel with
      | 0 => none
      | fuel' + 1 =>
        let endIndex := min (start + cs) text.length
        let chunk := jsSlice text start endIndex
        if endIndex < text.length then
          -- try to break at sentence boundaries
          let lastPeriod := jsLastIndexOf chunk ['.', ' ']
          let lastNewline := jsLastIndexOf chunk ['\n']
          match optMax lastPeriod lastNewline with
          | some b =>
            if 2 * b > cs then
              chunkParasAux text cs ov fuel' (start + (b + 1))
                (pushTrim acc (chunk.take (b + 1)))
            else
              chunkParasAux text cs ov fuel' (start + (cs - ov)) (pushTrim acc chunk)
          | none =>
            chunkParasAux text cs ov fuel' (start + (cs - ov)) (pushTrim acc chunk)
        else
          -- startIndex = text.length; push and leave the loop
          some (pushTrim acc chunk)
    else
      some acc

/-- `AdaptiveChunkerService.chunkByParagraphs` (also `RAGService.chunkText`,
whose body is identical with defaults `chunkSize = 1000`, `overlap = 200`).
`text.length + 1` units of fuel suffice whenever the JS loop terminates,
since every iteration advances `startIndex` by at least one. -/
def chunkByParagraphs (text : List Char) (cs ov : Nat) : Option (List (List Char)) :=
  chunkParasAux text cs ov (text.length + 1) 0 []

/-- Prepend a character to the first piece of a split result
(`[[c]]` when there is no piece yet). -/
def consHead (c : Char) : List (List Char) → List (List Char)
  | [] => [[c]]
  | h :: t => (c :: h) :: t

/-- `text.split(sep)` for a one-character separator (used with `'\n'`). -/
def splitOnChar (sep : Char) : List Char → List (List Char)
  | [] => [[]]
  | c :: t => if c == sep then [] :: splitOnChar sep t else consHead c (splitOnChar sep t)

/-- `text.split(/\n\n+/)`: the regex matches a maximal run of two or more
newlines (leftmost match, greedy `+`).  The Boolean state is `true` while the
scanner is inside a separator run that has already emitted its split. -/
def sbAux : Bool → List Char → List (List Char)
  | _, [] => [[]]
  | true, '\n' :: t => sbAux true t
  | true, c :: t => consHead c (sbAux false t)
  | false, '\n' :: '\n' :: t => [] :: sbAux true t
  | false, c :: t => consHead c (sbAux false t)

/-- `text.split(/\n\n+/)` as called by `chunkBySections`. -/
def splitBlank (text : List Char) : List (List Char) := sbAux false text

/-- `arr.slice(-k)` on an array of words: the last `k` elements — except that
JS `slice(-0)` is `slice(0)`, the whole array (relevant because
`Math.floor(overlap / 5)` is `0` whenever `overlap < 5`). -/
def jsSliceNeg (l : List (List Char)) (k : Nat) : List (List Char) :=
  if k = 0 then l else l.drop (l.length - k)

/-- State of the `for (const section of sections)` loop of `chunkBySections`. -/
structure SecState where
  chunks : List (List Char)
  cur : List Char
deriving DecidableEq

/-- One iteration of the section loop of
`AdaptiveChunkerService.chunkBySections`. -/
def secStep (cs ov : Nat) (st : SecState) (sec : List Char) : SecState :=
  if st.cur.length + sec.length > cs ∧ st.cur.length > 0 then
    let words := splitOnChar ' ' st.cur
    let overlapWords := jsSliceNeg words (ov / 5)
    { chunks := st.chunks ++ [jsTrim st.cur]
      cur := List.intercalate [' '] overlapWords ++ '\n' :: '\n' :: sec }
  else
    { st with cur := st.cur ++ (if st.cur.isEmpty then [] else ['\n', '\n']) ++ sec }

/-- `AdaptiveChunkerService.chunkBySections`. -/
def chunkBySections (text : List Char) (cs ov : Nat) : List (List Char) :=
  let sections := splitBlank text
  let st := sections.foldl (secStep cs ov) ⟨[], []⟩
  let chunks := if (jsTrim st.cur).isEmpty then st.chunks else st.chunks ++ [jsTrim st.cur]
  if chunks.isEmpty then [text] else chunks

/-- `'A' ≤ c ≤ 'Z'`, the regex class `[A-Z]`. -/
def isUpperAZ (c : Char) : Bool := 65 ≤ c.toNat && c.toNat ≤ 90

/-- Whether a newline-free line matches the heading regex
`/^(#{1,6}\s+.+|[A-Z][A-Z\s]{10,})$/` at position `0`:
either 1–6 leading `#` followed by a whitespace character and at least one
further character, or an upper-case letter followed by at least ten more
characters that are all upper-case letters or whitespace. -/
def matchesHeadingLine (l : List Char) : Bool :=
  (let j := (l.takeWhile (· == '#')).length
   1 ≤ j && j ≤ 6 && isWS ((l.drop j).headD 'x') && j + 2 ≤ l.length)
  ||
  (match l with
   | [] => false
   | c :: rest => isUpperAZ c && rest.length ≥ 10 && rest.all (fun d => isUpperAZ d || isWS d))

/-- State of the `for (const line of lines)` loop of `chunkByHeadings`.
`rlast` is the `lastIndex` of the shared global regex object `headingRegex`:
the source calls `.test(line)` on a regex built with the `g` flag, so a
successful test stores the match end in `lastIndex` and the *next* test
resumes from that offset (where `^` cannot match in a newline-free line),
fails, and resets `lastIndex` to `0`. -/
structure HdState where
  chunks : List (List Char)
  cur : List Char
  lastHeading : List Char
  rlast : Nat
deriving DecidableEq

/-- One iteration of the line loop of `AdaptiveChunkerService.chunkByHeadings`. -/
def hdLine (cs : Nat) (st : HdState) (line : List Char) : HdState :=
  let m : Bool × Nat :=
    if st.rlast ≠ 0 then (false, 0)
    else if matchesHeadingLine line then (true, line.length) else (false, 0)
  let st1 :=
    if m.1 ∧ 10 * st.cur.length > 3 * cs then
      { chunks := st.chunks ++ [jsTrim st.cur], cur := line, lastHeading := line, rlast := m.2 }
    else
      { st with cur := st.cur ++ '\n' :: line, rlast := m.2 }
  -- if chunk is too large, force split
  if 2 * st1.cur.length > 3 * cs then
    { st1 with chunks := st1.chunks ++ [jsTrim st1.cur], cur := st1.lastHeading }
  else st1

/-- `AdaptiveChunkerService.chunkByHeadings` (the `overlap` parameter is
received but never read by the source). -/
def chunkByHeadings (text : List Char) (cs _ov : Nat) : List (List Char) :=
  let lines := splitOnChar '\n' text
  let st := lines.foldl (hdLine cs) ⟨[], [], [], 0⟩
  let chunks := if (jsTrim st.cur).isEmpty then st.chunks else st.chunks ++ [jsTrim st.cur]
  if chunks.isEmpty then [text] else chunks

/-- `SiteType` (src/lib/services/site-detector.service.ts). -/
inductive SiteType where
  | blog | documentation | ecommerce | marketing | news | forum | unknown
deriving DecidableEq

/-- The `respectBoundaries` field of a `ChunkingStrategy`
(`sectionMode` renders the source's `'section'`, a keyword in Lean). -/
inductive BoundaryMode where
  | paragraph | sectionMode | heading | page
deriving DecidableEq

/-- `ChunkingStrategy` (src/lib/services/site-detector.service.ts). -/
structure ChunkingStrategy where
  preferredSize : Nat
  overlap : Nat
  respectBoundaries : BoundaryMode
  prioritySelectors : List String
deriving DecidableEq

/-- `SiteDetectorService.getChunkingStrategy`. -/
def getChunkingStrategy : SiteType → ChunkingStrategy
  | .blog =>
      ⟨1000, 200, .paragraph, ["article", "main", ".post-content", ".entry-content"]⟩
  | .documentation =>
      ⟨800, 150, .sectionMode, ["article", "main", ".content", "[role=main]", ".markdown"]⟩
  | .ecommerce =>
      ⟨500, 100, .page, [".product", ".item", "[itemtype*=Product]"]⟩
  | .marketing =>
      ⟨600, 150, .sectionMode, [".hero", ".section", ".feature", "main"]⟩
  | .news =>
      ⟨1200, 200, .paragraph, ["article", ".article-body", ".story-content"]⟩
  | .forum =>
      ⟨600, 100, .page, [".post", ".thread", ".message"]⟩
  | .unknown =>
      ⟨1000, 200, .paragraph, ["article", "main", "body"]⟩

/-- `AdaptiveChunkerService.chunkText`: dispatch on the boundary mode.
Only the paragraph branch can fail to terminate in the source, hence only it
is `Option`-valued in the embedding; the other three modes always yield
`some`. -/
def adaptiveChunkText (text : List Char) (s : ChunkingStrategy) :
    Option (List (List Char)) :=
  match s.respectBoundaries with
  | .page => some [text]
  | .sectionMode => some (chunkBySections text s.preferredSize s.overlap)
  | .heading => some (chunkByHeadings text s.preferredSize s.overlap)
  | .paragraph => chunkByParagraphs text s.preferredSize s.overlap

/-- ASCII lower-casing, the effect of a case-insensitive (`i`) regex flag on
the ASCII-only URL patterns of the source. -/
def lowerAscii (c : Char) : Char :=
  if 65 ≤ c.toNat ∧ c.toNat ≤ 90 then Char.ofNat (c.toNat + 32) else c

/-- `/pat/i.test(url)` for a literal alternation-free fragment `pat`:
case-insensitive substring test. -/
def urlTestCI (url : List Char) (pat : List Char) : Bool :=
  (url.map lowerAscii).tails.any (fun t => (pat.map lowerAscii).isPrefixOf t)

/-- `/blog|article|post/i.test(url)`. -/
def urlBlog (url : List Char) : Bool :=
  urlTestCI url "blog".toList || urlTestCI url "article".toList || urlTestCI url "post".toList

/-- `/docs|documentation|api|reference|guide/i.test(url)`
(`docs` is a substring of `documentation`, kept anyway, as in the source). -/
def urlDocs (url : List Char) : Bool :=
  urlTestCI url "docs".toList || urlTestCI url "documentation".toList ||
    urlTestCI url "api".toList || urlTestCI url "reference".toList ||
    urlTestCI url "guide".toList

/-- `/shop|store|product|checkout/i.test(url)`. -/
def urlShop (url : List Char) : Bool :=
  urlTestCI url "shop".toList || urlTestCI url "store".toList ||
    urlTestCI url "product".toList || urlTestCI url "checkout".toList

/-- `/news|press|media/i.test(url)`. -/
def urlNews (url : List Char) : Bool :=
  urlTestCI url "news".toList || urlTestCI url "press".toList || urlTestCI url "media".toList

/-- `/forum|community|discussion/i.test(url)`. -/
def urlForum (url : List Char) : Bool :=
  urlTestCI url "forum".toList || urlTestCI url "community".toList ||
    urlTestCI url "discussion".toList

/-- The element counts `detectSiteType` reads off the parsed DOM via cheerio,
one field per selector group, in source order.  Loading the empty HTML string
produces a document in which every selector matches zero elements, so the
empty page is modelled by `zeroDom`. -/
structure DomFacts where
  /-- `$('[class*="post"]').length` -/
  postCls : Nat
  /-- `$('[class*="article"]').length` -/
  articleCls : Nat
  /-- `$('[class*="author"]').length` -/
  authorCls : Nat
  /-- `$('meta[property="article:published_time"]').length` -/
  articleMeta : Nat
  /-- `$('[class*="comment"]').length` -/
  commentCls : Nat
  /-- `$('nav[class*="sidebar"]').length` -/
  navSidebar : Nat
  /-- `$('[class*="toc"]').length` -/
  tocCls : Nat
  /-- `$('code, pre').length` -/
  codePre : Nat
  /-- `$('[class*="breadcrumb"]').length` -/
  breadcrumbCls : Nat
  /-- `$('h1, h2, h3, h4').length` -/
  headings : Nat
  /-- `$('[class*="product"]').length` -/
  productCls : Nat
  /-- `$('[class*="price"]').length` -/
  priceCls : Nat
  /-- `$('[class*="cart"], [class*="basket"]').length` -/
  cartCls : Nat
  /-- `$('[class*="add-to-cart"], button[class*="buy"]').length` -/
  buyButtons : Nat
  /-- `$('meta[property="product:price"]').length` -/
  productMeta : Nat
  /-- `$('[class*="hero"], [class*="banner"]').length` -/
  heroBanner : Nat
  /-- `$('[class*="cta"], button[class*="sign-up"], button[class*="get-started"]').length` -/
  ctaButtons : Nat
  /-- `$('[class*="testimonial"], [class*="review"]').length` -/
  testimonialReview : Nat
  /-- `$('[class*="pricing"], [class*="plan"]').length` -/
  pricingPlan : Nat
  /-- `$('form[class*="contact"], form[class*="lead"]').length` -/
  leadForm : Nat
  /-- `$('[class*="headline"]').length` -/
  headlineCls : Nat
  /-- `$('time[datetime]').length` -/
  timeDatetime : Nat
  /-- `$('[class*="breaking"], [class*="latest"]').length` -/
  breakingLatest : Nat
  /-- `$('[class*="thread"], [class*="topic"]').length` -/
  threadTopic : Nat
  /-- `$('[class*="reply"], [class*="post"]').length` -/
  replyPost : Nat
  /-- `$('[class*="user"], [class*="member"]').length` -/
  userMember : Nat
deriving DecidableEq

/-- The DOM facts of the empty HTML document: no selector matches. -/
def zeroDom : DomFacts :=
  ⟨0, 0, 0, 0, 0, 0, 0, 0, 0, 0, 0, 0, 0, 0, 0, 0, 0, 0, 0, 0, 0, 0, 0, 0, 0, 0⟩

/-- `scores[SiteType.BLOG]` after the blog detection block. -/
def blogScore (d : DomFacts) (url : List Char) : Nat :=
  (if d.postCls > 0 then 20 else 0) +
  (if d.articleCls > 0 then 20 else 0) +
  (if d.authorCls > 0 then 15 else 0) +
  (if d.articleMeta > 0 then 25 else 0) +
  (if d.commentCls > 5 then 10 else 0) +
  (if urlBlog url then 15 else 0)

/-- `scores[SiteType.DOCUMENTATION]` after the documentation detection block. -/
def docScore (d : DomFacts) (url : List Char) : Nat :=
  (if d.navSidebar > 0 ∨ d.tocCls > 0 then 25 else 0) +
  (if d.codePre > 10 then 20 else 0) +
  (if d.breadcrumbCls > 0 then 15 else 0) +
  (if urlDocs url then 25 else 0) +
  (if d.headings > 15 then 10 else 0)

/-- `scores[SiteType.ECOMMERCE]` after the e-commerce detection block. -/
def ecomScore (d : DomFacts) (url : List Char) : Nat :=
  (if d.productCls > 3 then 25 else 0) +
  (if d.priceCls > 3 then 20 else 0) +
  (if d.cartCls > 0 then 25 else 0) +
  (if d.buyButtons > 0 then 20 else 0) +
  (if d.productMeta > 0 then 25 else 0) +
  (if urlShop url then 15 else 0)

/-- `scores[SiteType.MARKETING]` after the marketing detection block. -/
def marketingScore (d : DomFacts) : Nat :=
  (if d.heroBanner > 0 then 15 else 0) +
  (if d.ctaButtons > 2 then 20 else 0) +
  (if d.testimonialReview > 2 then 15 else 0) +
  (if d.pricingPlan > 0 then 20 else 0) +
  (if d.leadForm > 0 then 15 else 0)

/-- `scores[SiteType.NEWS]` after the news detection block. -/
def newsScore (d : DomFacts) (url : List Char) : Nat :=
  (if d.headlineCls > 5 then 20 else 0) +
  (if d.timeDatetime > 5 then 15 else 0) +
  (if d.breakingLatest > 0 then 20 else 0) +
  (if urlNews url then 15 else 0)

/-- `scores[SiteType.FORUM]` after the forum detection block. -/
def forumScore (d : DomFacts) (url : List Char) : Nat :=
  (if d.threadTopic > 3 then 25 else 0) +
  (if d.replyPost > 10 then 20 else 0) +
  (if d.userMember > 5 then 15 else 0) +
  (if urlForum url then 20 else 0)

/-- The `scores` record in `Object.entries` order (string keys keep insertion
order; `UNKNOWN` stays `0`). -/
def scoreEntries (d : DomFacts) (url : List Char) : List (SiteType × Nat) :=
  [(.blog, blogScore d url), (.documentation, docScore d url),
   (.ecommerce, ecomScore d url), (.marketing, marketingScore d),
   (.news, newsScore d url), (.forum, forumScore d url), (.unknown, 0)]

/-- The winner-selection loop: start from `(UNKNOWN, 0)` and replace the
leader whenever a strictly larger score appears. -/
def pickWinner (entries : List (SiteType × Nat)) : SiteType × Nat :=
  entries.foldl (fun acc p => if p.2 > acc.2 then p else acc) (.unknown, 0)

/-- Indicators pushed by the blog detection block, in source order. -/
def blogIndicators (d : DomFacts) (url : List Char) : List String :=
  List.flatten
    [(if d.postCls > 0 then ["Post classes found"] else []),
     (if d.articleCls > 0 then ["Article classes found"] else []),
     (if d.authorCls > 0 then ["Author elements found"] else []),
     (if d.articleMeta > 0 then ["Article meta tags found"] else []),
     (if d.commentCls > 5 then ["Comment section found"] else []),
     (if urlBlog url then ["Blog-related URL"] else [])]

/-- Indicators pushed by the documentation detection block, in source order. -/
def docIndicators (d : DomFacts) (url : List Char) : List String :=
  List.flatten
    [(if d.navSidebar > 0 ∨ d.tocCls > 0 then ["Navigation sidebar/TOC found"] else []),
     (if d.codePre > 10 then ["Many code blocks found"] else []),
     (if d.breadcrumbCls > 0 then ["Breadcrumb navigation found"] else []),
     (if urlDocs url then ["Documentation URL pattern"] else []),
     (if d.headings > 15 then ["Many headings (structured content)"] else [])]

/-- Indicators pushed by the e-commerce detection block, in source order. -/
def ecomIndicators (d : DomFacts) (url : List Char) : List String :=
  List.flatten
    [(if d.productCls > 3 then ["Product elements found"] else []),
     (if d.priceCls > 3 then ["Price elements found"] else []),
     (if d.cartCls > 0 then ["Shopping cart found"] else []),
     (if d.buyButtons > 0 then ["Buy buttons found"] else []),
     (if d.productMeta > 0 then ["Product meta tags found"] else []),
     (if urlShop url then ["E-commerce URL pattern"] else [])]

/-- Indicators pushed by the marketing detection block, in source order. -/
def marketingIndicators (d : DomFacts) : List String :=
  List.flatten
    [(if d.heroBanner > 0 then ["Hero/banner section found"] else []),
     (if d.ctaButtons > 2 then ["Multiple CTAs found"] else []),
     (if d.testimonialReview > 2 then ["Testimonials found"] else []),
     (if d.pricingPlan > 0 then ["Pricing section found"] else []),
     (if d.leadForm > 0 then ["Lead capture form found"] else [])]

/-- Indicators pushed by the news detection block, in source order. -/
def newsIndicators (d : DomFacts) (url : List Char) : List String :=
  List.flatten
    [(if d.headlineCls > 5 then ["Multiple headlines found"] else []),
     (if d.timeDatetime > 5 then ["Many timestamps found"] else []),
     (if d.breakingLatest > 0 then ["Breaking/latest news indicators"] else []),
     (if urlNews url then ["News URL pattern"] else [])]

/-- Indicators pushed by the forum detection block, in source order. -/
def forumIndicators (d : DomFacts) (url : List Char) : List String :=
  List.flatten
    [(if d.threadTopic > 3 then ["Thread/topic elements found"] else []),
     (if d.replyPost > 10 then ["Many posts/replies found"] else []),
     (if d.userMember > 5 then ["User/member indicators"] else []),
     (if urlForum url then ["Forum URL pattern"] else [])]

/-- The `indicators` array pushed by the detection blocks, in source order. -/
def indicatorsOf (d : DomFacts) (url : List Char) : List String :=
  blogIndicators d url ++ docIndicators d url ++ ecomIndicators d url ++
    marketingIndicators d ++ newsIndicators d url ++ forumIndicators d url

/-- `SiteStructure` as returned by `detectSiteType` (metadata patterns are a
static table per type and are not needed by any claim). -/
structure SiteStructure where
  type : SiteType
  confidence : ℚ
  indicators : List String
  chunkingStrategy : ChunkingStrategy
deriving DecidableEq

/-- `SiteDetectorService.detectSiteType`, over the DOM facts the cheerio
queries return for the page and the raw URL string. -/
def detectSiteType (d : DomFacts) (url : List Char) : SiteStructure :=
  let w := pickWinner (scoreEntries d url)
  { type := w.1
    confidence := min ((w.2 : ℚ) / 100) 1
    indicators := indicatorsOf d url
    chunkingStrategy := getChunkingStrategy w.1 }

/-- Stable insertion (after existing elements of equal key) into a list sorted
by descending key. -/
def insertDescBy {α : Type} (key : α → ℚ) (x : α) : List α → List α
  | [] => [x]
  | y :: t => if key y < key x then x :: y :: t else y :: insertDescBy key x t

/-- `arr.sort((a, b) => key(b) - key(a))`: a stable sort into descending key
order, as JavaScript `Array.prototype.sort` is specified to produce for this
comparator. -/
def sortDescBy {α : Type} (key : α → ℚ) (l : List α) : List α :=
  l.foldr (insertDescBy key) []

/-- The ranking step of `RAGService.findRelevantChunks`: map every candidate
chunk to its similarity against the query, sort by descending similarity,
take the first `topK`.  The similarity assignment `sim` stands for
`cosineSimilarity(queryEmbedding, chunkEmbedding)` with real-valued
arithmetic; any query vector induces one such assignment. -/
def rankBySimilarity {α : Type} (sim : α → ℚ) (chunks : List α) (topK : Nat) :
    List (α × ℚ) :=
  (sortDescBy Prod.snd (chunks.map (fun c => (c, sim c)))).take topK

/-- `vecA.reduce((sum, a, i) => sum + a * vecB[i], 0)` for vectors of equal
length. -/
def jsDot (a b : List ℚ) : ℚ :=
  (List.zipWith (· * ·) a b).foldl (· + ·) 0

/-- `vec.reduce((sum, a) => sum + a * a, 0)`, the square of the Euclidean
magnitude computed by `cosineSimilarity`. -/
def sumSq (a : List ℚ) : ℚ :=
  (a.map (fun x => x * x)).foldl (· + ·) 0

/-- The exact value of the IEEE-754 expression
`dotProduct / (magnitudeA * magnitudeB)`.  `val num denomSq` denotes the
finite real `num / √denomSq` with `denomSq ≠ 0` (kept in squared form, since
the square root of a rational is irrational in general); when the
denominator is zero the IEEE quotient is `NaN` for a zero numerator and a
signed infinity otherwise. -/
inductive CosVal where
  | nan
  | posInf
  | negInf
  | val (num : ℚ) (denomSq : ℚ)
deriving DecidableEq

/-- `RAGService.cosineSimilarity`.  `magnitudeA * magnitudeB = 0` exactly when
`sumSq a * sumSq b = 0` (square roots of non-negative reals), and both sides
of the final division are exact at that point, so the `CosVal` returned is
the exact IEEE outcome whenever the inputs are exactly representable. -/
def cosineSimilarity (a b : List ℚ) : CosVal :=
  let dp := jsDot a b
  let m2 := sumSq a * sumSq b
  if m2 = 0 then
    (if dp = 0 then .nan else if dp > 0 then .posInf else .negInf)
  else .val dp m2

/-- The environment of one `ScraperService.scrapeWebsite` run.  `fetch t url`
is the outcome of `scrapePage(url)` at iteration `t` — `none` when it throws,
otherwise the deduplicated outbound link list of the fetched page;
`resolve link base` is `new URL(link, base).href` (`none` when the
constructor throws); `sameHost href` is `linkUrl.hostname === baseHostname`;
`priority` is the numeric priority the listing/article heuristics assign. -/
structure CrawlEnv where
  fetch : Nat → String → Option (List String)
  resolve : String → String → Option String
  sameHost : String → Bool
  priority : String → ℚ

/-- State of the crawl loop: the frontier `urlsToVisit`, the `visitedUrls`
set (as a list) and the URLs of the pages pushed to `scrapedPages`. -/
structure CrawlState where
  queue : List String
  visited : List String
  pages : List String
deriving DecidableEq

/-- One iteration of the `while` loop of `ScraperService.scrapeWebsite`
(after the loop condition has been checked): shift the frontier, skip
already-visited URLs, skip fetch failures, otherwise record the page, mark
the URL visited, and append the same-host unvisited resolved links — sorted
by descending priority, minus those already queued — to the frontier.
Returns the new state together with the batch of links just enqueued. -/
def crawlStepFull (env : CrawlEnv) (t : Nat) (s : CrawlState) :
    CrawlState × List String :=
  match s.queue with
  | [] => (s, [])
  | current :: rest =>
    if s.visited.contains current then ({ s with queue := rest }, [])
    else
      match env.fetch t current with
      | none => ({ s with queue := rest }, [])
      | some links =>
        let visited' := s.visited ++ [current]
        let pages' := s.pages ++ [current]
        let newLinks := (links.filterMap (fun l => env.resolve l current)).filter
          (fun h => env.sameHost h && !(visited'.contains h))
        let batch := (sortDescBy env.priority newLinks).filter
          (fun u => !(rest.contains u))
        ({ queue := rest ++ batch, visited := visited', pages := pages' }, batch)

/-- The `while (urlsToVisit.length > 0 && scrapedPages.length < maxPages)`
loop of `scrapeWebsite`, fuel-indexed (the fuel only cuts the run short; every
prefix of the loop's execution is some `crawlRun` result, so invariants proved
for all fuels hold at every point of the real run). -/
def crawlRun (env : CrawlEnv) (maxPages : Nat) :
    Nat → Nat → CrawlState → CrawlState
  | 0, _, s => s
  | fuel + 1, t, s =>
    if s.queue.isEmpty || maxPages ≤ s.pages.length then s
    else crawlRun env maxPages fuel (t + 1) (crawlStepFull env t s).1

/-- A persisted chat message row (`websiteChatMessage`). -/
structure ChatMsg where
  role : String
  content : String
deriving DecidableEq

/-- The HTTP outcome of the chat-turn handler. -/
inductive PostResult where
  /-- `{ success: true }` -/
  | success
  /-- status 400 (missing message, or website not ready) -/
  | badRequest
  /-- status 404 -/
  | notFound
  /-- status 500 from the surrounding `catch` -/
  | serverError
deriving DecidableEq

/-- The `POST` handler of src/app/api/chat/[websiteId]/messages/route.ts over
the persistence boundary: `websiteStatus` is the looked-up website's status
(`none` when the website row is absent), `genResult` the outcome of
`RAGService.generateResponse` (`Except.error` when the completion provider
throws), `msgs` the stored messages of the chat.  Returns the HTTP outcome
and the stored messages afterwards.  The user row is created *before*
`generateResponse` runs and nothing is rolled back by the `catch`. -/
def postMessage (websiteStatus : Option String) (message : String)
    (genResult : Except String String) (msgs : List ChatMsg) :
    PostResult × List ChatMsg :=
  if jsTrim message.toList = [] then (.badRequest, msgs)
  else
    match websiteStatus with
    | none => (.notFound, msgs)
    | some st =>
      if st ≠ "completed" then (.badRequest, msgs)
      else
        let msgs1 := msgs ++ [⟨"user", message⟩]
        match genResult with
        | .error _ => (.serverError, msgs1)
        | .ok resp => (.success, msgs1 ++ [⟨"assistant", resp⟩])

/-- `n` one-character sections separated by blank lines (`"a\n\na\n\n…a"`,
length `3·n − 2`).  With `overlap = 0` the carried overlap is
`words.slice(-0)`, i.e. the *whole* previous chunk, so once the running chunk
exceeds `preferredSize` every further section emits a chunk: the chunk count
grows like the section count, not like `len/preferredSize`. -/
def aSections (n : Nat) : List Char :=
  List.intercalate "\n\n".toList (List.replicate n "a".toList)

/-! ## Helper lemmas -/

theorem consHead_length (c : Char) (r : List (List Char)) :
    (consHead c r).length = max r.length 1 := by
  cases r with
  | nil => simp [consHead]
  | cons h t => simp [consHead]

theorem dropWhile_self_of_head (p : Char → Bool) (l : List Char)
    (h : ∀ c, l.head? = some c → p c = false) : l.dropWhile p = l := by
  cases l with
  | nil => rfl
  | cons c t => simp [List.dropWhile_cons, h c rfl]

theorem head?_dropWhile (p : Char → Bool) (l : List Char) :
    ∀ c, (l.dropWhile p).head? = some c → p c = false := by
  induction l with
  | nil => simp
  | cons a t ih =>
      intro c hc
      rw [List.dropWhile_cons] at hc
      by_cases h : p a
      · exact ih c (by simpa [h] using hc)
      · rw [if_neg h] at hc
        simp only [List.head?_cons, Option.some.injEq] at hc
        subst hc
        exact Bool.eq_false_iff.mpr h

theorem getLast?_dropWhile (p : Char → Bool) (l : List Char)
    (h : l.dropWhile p ≠ []) : (l.dropWhile p).getLast? = l.getLast? := by
  induction l with
  | nil => simp at h
  | cons a t ih =>
      rw [List.dropWhile_cons]
      by_cases hp : p a
      · have h' : t.dropWhile p ≠ [] := by
          intro he; rw [List.dropWhile_cons, if_pos hp] at h; exact h he
        have ht : t ≠ [] := by
          intro he; subst he; simp at h'
        rw [if_pos hp, ih h']
        cases t with
        | nil => exact absurd rfl ht
        | cons b u => exact (List.getLast?_cons_cons).symm
      · rw [if_neg hp]

theorem jsTrim_head (l : List Char) :
    ∀ c, (jsTrim l).head? = some c → isWS c = false := by
  intro c hc
  unfold jsTrim at hc
  rw [List.head?_reverse] at hc
  by_cases hB : ((l.dropWhile isWS).reverse.dropWhile isWS) = []
  · simp [hB] at hc
  · rw [getLast?_dropWhile _ _ hB, List.getLast?_reverse] at hc
    exact head?_dropWhile isWS l c hc

theorem jsTrim_getLast (l : List Char) :
    ∀ c, (jsTrim l).getLast? = some c → isWS c = false := by
  intro c hc
  unfold jsTrim at hc
  rw [List.getLast?_reverse] at hc
  exact head?_dropWhile isWS _ c hc

theorem jsTrim_idem (l : List Char) : jsTrim (jsTrim l) = jsTrim l := by
  have h1 : (jsTrim l).dropWhile isWS = jsTrim l :=
    dropWhile_self_of_head _ _ (jsTrim_head l)
  have h2 : (jsTrim l).reverse.dropWhile isWS = (jsTrim l).reverse := by
    refine dropWhile_self_of_head _ _ ?_
    intro c hc
    rw [List.head?_reverse] at hc
    exact jsTrim_getLast l c hc
  show (((jsTrim l).dropWhile isWS).reverse.dropWhile isWS).reverse = jsTrim l
  rw [h1, h2, List.reverse_reverse]

theorem pushTrim_mem (acc : List (List Char)) (x : List Char)
    (P : List Char → Prop) (hacc : ∀ c ∈ acc, P c)
    (hx : jsTrim x ≠ [] → P (jsTrim x)) :
    ∀ c ∈ pushTrim acc x, P c := by
  intro c hc
  unfold pushTrim at hc
  by_cases h : (jsTrim x).isEmpty
  · exact hacc c (by simpa [h] using hc)
  · rw [if_neg h] at hc
    rcases List.mem_append.mp hc with h1 | h2
    · exact hacc c h1
    · have : c = jsTrim x := by simpa using h2
      subst this
      exact hx (by simpa [List.isEmpty_iff] using h)

theorem pushTrim_length (acc : List (List Char)) (x : List Char) :
    (pushTrim acc x).length ≤ acc.length + 1 := by
  unfold pushTrim
  by_cases h : (jsTrim x).isEmpty <;> simp [h]

theorem chunkParasAux_isSome (text : List Char) (cs ov : Nat)
    (hcs : 0 < cs) (hov : ov < cs) :
    ∀ fuel start acc, text.length - start < fuel →
      (chunkParasAux text cs ov fuel start acc).isSome := by
  intro fuel
  induction fuel with
  | zero => intro start acc h; omega
  | succ f ih =>
      intro start acc h
      rw [chunkParasAux]
      by_cases hs : start < text.length
      · rw [if_pos hs]
        dsimp only
        split
        · split
          · split
            · exact ih _ _ (by omega)
            · exact ih _ _ (by omega)
          · exact ih _ _ (by omega)
        · simp
      · rw [if_neg hs]; simp

theorem chunkParasAux_trimmed (text : List Char) (cs ov : Nat) :
    ∀ fuel start acc l, (∀ c ∈ acc, jsTrim c = c ∧ c ≠ []) →
      chunkParasAux text cs ov fuel start acc = some l →
      ∀ c ∈ l, jsTrim c = c ∧ c ≠ [] := by
  intro fuel
  induction fuel with
  | zero =>
      intro start acc l hacc hl
      rw [chunkParasAux] at hl
      by_cases hs : start < text.length
      · rw [if_pos hs] at hl; exact absurd hl (by simp)
      · rw [if_neg hs] at hl
        cases hl
        exact hacc
  | succ f ih =>
      intro start acc l hacc hl
      rw [chunkParasAux] at hl
      have hpush : ∀ x, ∀ c ∈ pushTrim acc x, jsTrim c = c ∧ c ≠ [] := fun x =>
        pushTrim_mem acc x _ hacc (fun hne => ⟨jsTrim_idem x, hne⟩)
      by_cases hs : start < text.length
      · rw [if_pos hs] at hl
        dsimp only at hl
        revert hl
        split
        · split
          · split
            · exact fun hl => ih _ _ _ (hpush _) hl
            · exact fun hl => ih _ _ _ (hpush _) hl
          · exact fun hl => ih _ _ _ (hpush _) hl
        · intro hl
          cases hl
          exact hpush _
      · rw [if_neg hs] at hl
        cases hl
        exact hacc

theorem chunkParasAux_count (text : List Char) (cs ov : Nat)
    (hov : ov < cs) :
    ∀ fuel start acc l, chunkParasAux text cs ov fuel start acc = some l →
      l.length ≤ acc.length + (text.length - start) + 1 := by
  intro fuel
  induction fuel with
  | zero =>
      intro start acc l hl
      rw [chunkParasAux] at hl
      by_cases hs : start < text.length
      · rw [if_pos hs] at hl; exact absurd hl (by simp)
      · rw [if_neg hs] at hl
        cases hl
        omega
  | succ f ih =>
      intro start acc l hl
      rw [chunkParasAux] at hl
      by_cases hs : start < text.length
      · rw [if_pos hs] at hl
        dsimp only at hl
        revert hl
        split
        · split
          · split
            · intro hl
              rename_i hmin x b heq hgt
              have h1 := ih _ _ _ hl
              have h2 := pushTrim_length acc
                ((jsSlice text start (min (start + cs) text.length)).take (b + 1))
              omega
            · intro hl
              have h1 := ih _ _ _ hl
              have h2 := pushTrim_length acc (jsSlice text start (min (start + cs) text.length))
              omega
          · intro hl
            have h1 := ih _ _ _ hl
            have h2 := pushTrim_length acc (jsSlice text start (min (start + cs) text.length))
            omega
        · intro hl
          cases hl
          have h2 := pushTrim_length acc (jsSlice text start (min (start + cs) text.length))
          omega
      · rw [if_neg hs] at hl
        cases hl
        omega

theorem secStep_chunks_le (cs ov : Nat) (st : SecState) (sec : List Char) :
    (secStep cs ov st sec).chunks.length ≤ st.chunks.length + 1 := by
  unfold secStep
  split <;> simp

theorem secFold_chunks_le (cs ov : Nat) :
    ∀ (secs : List (List Char)) (st : SecState),
      ((secs.foldl (secStep cs ov) st).chunks).length ≤ st.chunks.length + secs.length := by
  intro secs
  induction secs with
  | nil => intro st; simp
  | cons sec t ih =>
      intro st
      have h1 := ih (secStep cs ov st sec)
      have h2 := secStep_chunks_le cs ov st sec
      simpa [List.foldl_cons] using by omega

theorem splitOnChar_length_le (sep : Char) :
    ∀ (l : List Char), (splitOnChar sep l).length ≤ l.length + 1 := by
  intro l
  induction l with
  | nil => simp [splitOnChar]
  | cons c t ih =>
      rw [splitOnChar]
      by_cases h : c == sep
      · simp only [h, if_pos]
        simpa using ih
      · rw [if_neg (by simpa using h)]
        have := consHead_length c (splitOnChar sep t)
        simp only [List.length_cons]
        omega

theorem sbAux_length_le : ∀ (b : Bool) (l : List Char), (sbAux b l).length ≤ l.length + 1 := by
  intro b l
  induction b, l using sbAux.induct with
  | case1 b => simp [sbAux]
  | case2 t ih => simpa [sbAux] using by omega
  | case3 c t h ih =>
      rw [sbAux]
      · have hc := consHead_length c (sbAux false t)
        simp only [List.length_cons]
        omega
      · exact h
  | case4 t ih => simpa [sbAux] using by omega
  | case5 c t h ih =>
      rw [sbAux]
      · have hc := consHead_length c (sbAux false t)
        simp only [List.length_cons]
        omega
      · exact h

theorem hdLine_chunks_le (cs : Nat) (st : HdState) (line : List Char) :
    (hdLine cs st line).chunks.length ≤ st.chunks.length + 2 := by
  unfold hdLine
  dsimp only
  repeat' split
  all_goals simp

theorem hdFold_chunks_le (cs : Nat) :
    ∀ (lines : List (List Char)) (st : HdState),
      ((lines.foldl (hdLine cs) st).chunks).length ≤ st.chunks.length + 2 * lines.length := by
  intro lines
  induction lines with
  | nil => intro st; simp
  | cons line t ih =>
      intro st
      have h1 := ih (hdLine cs st line)
      have h2 := hdLine_chunks_le cs st line
      simpa [List.foldl_cons] using by omega

theorem ite_fallback_ne_nil (chunks : List (List Char)) (text : List Char) :
    (if chunks.isEmpty then [text] else chunks) ≠ [] := by
  split
  · exact List.cons_ne_nil _ _
  · next h => exact fun he => h (by simp [he])

theorem chunkBySections_ne_nil (text : List Char) (cs ov : Nat) :
    chunkBySections text cs ov ≠ [] := by
  unfold chunkBySections
  exact ite_fallback_ne_nil _ _

theorem chunkByHeadings_ne_nil (text : List Char) (cs ov : Nat) :
    chunkByHeadings text cs ov ≠ [] := by
  unfold chunkByHeadings
  exact ite_fallback_ne_nil _ _

theorem chunkBySections_count (text : List Char) (cs ov : Nat) :
    (chunkBySections text cs ov).length ≤ text.length + 3 := by
  unfold chunkBySections splitBlank
  dsimp only
  have h1 := secFold_chunks_le cs ov (sbAux false text) ⟨[], []⟩
  have h2 := sbAux_length_le false text
  simp only [List.length_nil, Nat.zero_add] at h1
  have h3 : ∀ (chunks : List (List Char)),
      (if chunks.isEmpty then [text] else chunks).length ≤ chunks.length + 1 := by
    intro chunks; split <;> simp
  have h4 : ∀ (c : List (List Char)) (x : List Char),
      (if (jsTrim x).isEmpty then c else c ++ [jsTrim x]).length ≤ c.length + 1 := by
    intro c x; split <;> simp
  refine le_trans (h3 _) ?_
  have h5 := h4 (List.foldl (secStep cs ov) ⟨[], []⟩ (sbAux false text)).chunks
    (List.foldl (secStep cs ov) ⟨[], []⟩ (sbAux false text)).cur
  omega

theorem chunkByHeadings_count (text : List Char) (cs ov : Nat) :
    (chunkByHeadings text cs ov).length ≤ 2 * text.length + 4 := by
  unfold chunkByHeadings
  dsimp only
  have h1 := hdFold_chunks_le cs (splitOnChar '\n' text) ⟨[], [], [], 0⟩
  have h2 := splitOnChar_length_le '\n' text
  simp only [List.length_nil, Nat.zero_add] at h1
  have h3 : ∀ (chunks : List (List Char)),
      (if chunks.isEmpty then [text] else chunks).length ≤ chunks.length + 1 := by
    intro chunks; split <;> simp
  have h4 : ∀ (c : List (List Char)) (x : List Char),
      (if (jsTrim x).isEmpty then c else c ++ [jsTrim x]).length ≤ c.length + 1 := by
    intro c x; split <;> simp
  refine le_trans (h3 _) ?_
  have h5 := h4 (List.foldl (hdLine cs) ⟨[], [], [], 0⟩ (splitOnChar '\n' text)).chunks
    (List.foldl (hdLine cs) ⟨[], [], [], 0⟩ (splitOnChar '\n' text)).cur
  omega

/-! ## Claims -/

/-- C1 (amended): in the `section`, `heading` and `page` boundary modes,
`AdaptiveChunkerService.chunkText` always returns a non-empty list — `page`
returns the whole text as one chunk, and the other two modes fall back to
`[text]` when their algorithm produces zero chunks.  (Paragraph mode has no
such fallback; see the counterexample.) -/
theorem chunkText_nonempty_of_nonparagraph (text : List Char) (s : ChunkingStrategy)
    (h : s.respectBoundaries ≠ .paragraph) :
    ∃ l, adaptiveChunkText text s = some l ∧ l ≠ [] := by
  cases hb : s.respectBoundaries with
  | paragraph => exact absurd hb h
  | page => exact ⟨[text], by simp [adaptiveChunkText, hb], by simp⟩
  | sectionMode =>
      exact ⟨chunkBySections text s.preferredSize s.overlap,
        by simp [adaptiveChunkText, hb], chunkBySections_ne_nil _ _ _⟩
  | heading =>
      exact ⟨chunkByHeadings text s.preferredSize s.overlap,
        by simp [adaptiveChunkText, hb], chunkByHeadings_ne_nil _ _ _⟩

/-- Witness for C1: a concrete non-paragraph run. -/
theorem chunkText_nonempty_of_nonparagraph_witness :
    ∃ l, adaptiveChunkText "x".toList (getChunkingStrategy .ecommerce) = some l ∧ l ≠ [] :=
  chunkText_nonempty_of_nonparagraph "x".toList (getChunkingStrategy .ecommerce) (by decide)

/-- Counterexample to C1 as stated: in paragraph mode (the blog strategy) a
whitespace-only text produces *zero* chunks and no `[text]` fallback is
applied — `chunkByParagraphs` is the one mode-specific algorithm without the
`chunks.length > 0 ? chunks : [text]` last line. -/
theorem chunkText_paragraph_whitespace_empty :
    adaptiveChunkText "   ".toList (getChunkingStrategy .blog) = some [] := by decide

/-- C2: the heading regex is created with the `g` flag and reused via
`.test()` across lines, so its `lastIndex` survives between lines: a heading
line that immediately follows a successfully tested heading line tests
`false` and is merged into the current chunk instead of closing it.
Here `"# C cc"` matches the heading pattern and the current chunk `"# BBBB"`
has length 6 > 30% of `preferredSize = 10`, yet no split happens. -/
theorem headingRegex_state_swallows_heading :
    chunkByHeadings "aaaa\n# BBBB\n# C cc".toList 10 0
        = ["aaaa".toList, "# BBBB\n# C cc".toList]
    ∧ matchesHeadingLine "# C cc".toList = true := by
  exact ⟨by decide, by decide⟩

/-- C3 (amended): in paragraph mode every returned chunk is non-empty after
trimming (chunks are pushed already trimmed and only when non-empty).  The
other modes can return a chunk that trims to empty; see the counterexample. -/
theorem paragraph_chunks_trim_nonempty (text : List Char) (cs ov : Nat)
    (l : List (List Char)) (hl : chunkByParagraphs text cs ov = some l) :
    ∀ c ∈ l, jsTrim c ≠ [] := by
  intro c hc
  have h := chunkParasAux_trimmed text cs ov (text.length + 1) 0 [] l (by simp) hl c hc
  rw [h.1]
  exact h.2

/-- Witness for C3: a concrete paragraph-mode run. -/
theorem paragraph_chunks_trim_nonempty_witness :
    jsTrim "ab".toList ≠ [] :=
  paragraph_chunks_trim_nonempty "ab".toList 1000 200 [['a', 'b']] (by decide)
    ['a', 'b'] (by decide)

/-- Counterexample to C3 as stated: in `page` mode (the e-commerce strategy)
the empty text is returned unchanged as the single chunk, and it is empty
after trimming. -/
theorem pageMode_chunk_empty_after_trim :
    adaptiveChunkText [] (getChunkingStrategy .ecommerce) = some [[]]
    ∧ jsTrim [] = [] := by
  exact ⟨by decide, rfl⟩

/-- C7 (amended): for `0 < preferredSize` and `overlap < preferredSize` the
chunk count of every mode is finite and at most linear in the text length
(`2·len + 5`); the claimed bound `⌈len/(P−O)⌉ + O(1)` fails — see the
counterexample, where section mode emits one chunk per three characters
against a claimed one per ten. -/
theorem chunk_count_linear_bound (text : List Char) (s : ChunkingStrategy)
    (h1 : 0 < s.preferredSize) (h2 : s.overlap < s.preferredSize)
    (l : List (List Char)) (hl : adaptiveChunkText text s = some l) :
    l.length ≤ 2 * text.length + 5 := by
  cases hb : s.respectBoundaries with
  | page =>
      rw [adaptiveChunkText, hb] at hl
      cases hl
      simp
  | paragraph =>
      rw [adaptiveChunkText, hb] at hl
      have := chunkParasAux_count text s.preferredSize s.overlap h2 _ 0 [] l hl
      simp at this
      omega
  | sectionMode =>
      rw [adaptiveChunkText, hb] at hl
      cases hl
      have := chunkBySections_count text s.preferredSize s.overlap
      omega
  | heading =>
      rw [adaptiveChunkText, hb] at hl
      cases hl
      have := chunkByHeadings_count text s.preferredSize s.overlap
      omega

/-- Witness for C7: a concrete bounded run. -/
theorem chunk_count_linear_bound_witness :
    ([['a', 'b']] : List (List Char)).length ≤ 2 * "ab".toList.length + 5 :=
  chunk_count_linear_bound "ab".toList (getChunkingStrategy .blog) (by decide) (by decide)
    [['a', 'b']] (by decide)

/-- C9: the paragraph chunking loop terminates for every text whenever
`0 < preferredSize` and `overlap < preferredSize` (each iteration strictly
increases the start index), and for `overlap = preferredSize` there is no
such guarantee: on the text `"ab"` with `preferredSize = overlap = 1` the
loop never terminates (no amount of fuel produces a result). -/
theorem paragraph_chunking_terminates :
    (∀ (text : List Char) (cs ov : Nat), 0 < cs → ov < cs →
        (chunkByParagraphs text cs ov).isSome)
    ∧ (∀ fuel acc, chunkParasAux "ab".toList 1 1 fuel 0 acc = none) := by
  constructor
  · intro text cs ov h1 h2
    exact chunkParasAux_isSome text cs ov h1 h2 _ 0 [] (by omega)
  · intro fuel
    induction fuel with
    | zero => intro acc; simp [chunkParasAux]
    | succ n ih =>
        intro acc
        simpa [chunkParasAux, jsSlice, jsLastIndexOf, pushTrim, jsTrim, isWS] using ih _

/-- Witness for C9: a concrete terminating run. -/
theorem paragraph_chunking_terminates_witness :
    (chunkByParagraphs "hi".toList 5 2).isSome :=
  paragraph_chunking_terminates.1 "hi".toList 5 2 (by omega) (by omega)

set_option maxRecDepth 4000 in
/-- Counterexample to C7 as stated: on `aSections 20` (length 58) with
`preferredSize = 10`, `overlap = 0` — a valid strategy, `0 ≤ O < P` — section
mode returns 17 chunks while `⌈len/(P−O)⌉ = 6`, and on `aSections 40`
(length 118) it returns 37 chunks while `⌈len/(P−O)⌉ = 12`: the excess grows
linearly with the text, so no additive constant can repair the claimed
bound. -/
theorem section_chunk_count_gap :
    (chunkBySections (aSections 20) 10 0).length = 17
    ∧ (aSections 20).length = 58 ∧ (58 + (10 - 0) - 1) / (10 - 0) = 6
    ∧ (chunkBySections (aSections 40) 10 0).length = 37
    ∧ (aSections 40).length = 118 ∧ (118 + (10 - 0) - 1) / (10 - 0) = 12 := by
  refine ⟨by decide, by decide, by decide, by decide, by decide, by decide⟩

theorem insertDescBy_length {α : Type} (key : α → ℚ) (x : α) (l : List α) :
    (insertDescBy key x l).length = l.length + 1 := by
  induction l with
  | nil => rfl
  | cons y t ih =>
      rw [insertDescBy]
      split
      · simp
      · simp [ih]

theorem sortDescBy_length {α : Type} (key : α → ℚ) (l : List α) :
    (sortDescBy key l).length = l.length := by
  induction l with
  | nil => rfl
  | cons y t ih =>
      unfold sortDescBy at ih ⊢
      rw [List.foldr_cons, insertDescBy_length, ih, List.length_cons]

theorem insertDescBy_mem {α : Type} (key : α → ℚ) (x : α) (l : List α) :
    ∀ z ∈ insertDescBy key x l, z = x ∨ z ∈ l := by
  induction l with
  | nil => intro z hz; simpa [insertDescBy] using hz
  | cons y t ih =>
      intro z hz
      rw [insertDescBy] at hz
      split at hz
      · rcases List.mem_cons.mp hz with h | h
        · exact Or.inl h
        · exact Or.inr h
      · rcases List.mem_cons.mp hz with h | h
        · exact Or.inr (by simp [h])
        · rcases ih z h with h' | h'
          · exact Or.inl h'
          · exact Or.inr (List.mem_cons_of_mem _ h')

theorem sortDescBy_mem {α : Type} (key : α → ℚ) (l : List α) :
    ∀ z ∈ sortDescBy key l, z ∈ l := by
  induction l with
  | nil => intro z hz; simp [sortDescBy] at hz
  | cons y t ih =>
      intro z hz
      unfold sortDescBy at hz ih
      rw [List.foldr_cons] at hz
      rcases insertDescBy_mem key y _ z hz with h | h
      · simp [h]
      · exact List.mem_cons_of_mem _ (ih z h)

theorem insertDescBy_sorted {α : Type} (key : α → ℚ) (x : α) (l : List α)
    (hl : l.Sorted (fun a b => key b ≤ key a)) :
    (insertDescBy key x l).Sorted (fun a b => key b ≤ key a) := by
  induction l with
  | nil => simp [insertDescBy]
  | cons y t ih =>
      rw [insertDescBy]
      rw [List.sorted_cons] at hl
      split
      · next hlt =>
          rw [List.sorted_cons]
          refine ⟨?_, List.sorted_cons.mpr hl⟩
          intro b hb
          rcases List.mem_cons.mp hb with h | h
          · exact le_of_lt (h ▸ hlt)
          · exact le_trans (hl.1 b h) (le_of_lt hlt)
      · next hge =>
          rw [List.sorted_cons]
          refine ⟨?_, ih hl.2⟩
          intro b hb
          rcases insertDescBy_mem key x t b hb with h | h
          · exact h ▸ le_of_not_lt hge
          · exact hl.1 b h

theorem sortDescBy_sorted {α : Type} (key : α → ℚ) (l : List α) :
    (sortDescBy key l).Sorted (fun a b => key b ≤ key a) := by
  induction l with
  | nil => simp [sortDescBy]
  | cons y t ih =>
      unfold sortDescBy at ih ⊢
      rw [List.foldr_cons]
      exact insertDescBy_sorted key y _ ih

/-- C4: the ranking step returns the candidates sorted by non-increasing
similarity, with exactly `min(topK, |candidates|)` results, and the empty
sequence for `topK = 0`.  (Similarities are modelled as exact rationals; the
IEEE `NaN` that `cosineSimilarity` can produce is the subject of C10.) -/
theorem rank_sorted_length_topK :
    ∀ (sim : List Char → ℚ) (chunks : List (List Char)) (topK : Nat),
      ((rankBySimilarity sim chunks topK).map Prod.snd).Sorted (· ≥ ·)
      ∧ (rankBySimilarity sim chunks topK).length = min topK chunks.length
      ∧ (topK = 0 → rankBySimilarity sim chunks topK = []) := by
  intro sim chunks topK
  refine ⟨?_, ?_, ?_⟩
  · have hs := sortDescBy_sorted (Prod.snd (α := List Char))
      (chunks.map (fun c => (c, sim c)))
    have ht : (rankBySimilarity sim chunks topK).Sorted
        (fun a b => Prod.snd b ≤ Prod.snd a) :=
      hs.sublist (List.take_sublist _ _)
    rw [List.Sorted, List.pairwise_map]
    exact ht
  · rw [rankBySimilarity, List.length_take, sortDescBy_length, List.length_map]
  · intro h
    rw [rankBySimilarity, h, List.take_zero]

/-- C5 (amended): for every page the confidence equals
`min(maxScore/100, 1)` and lies in `[0, 1]`; and for the empty HTML document
(no selector matches) *whose URL matches none of the URL patterns* the result
is `unknown` with confidence `0` and no indicators.  (For empty HTML alone
this fails: the URL-only indicators still fire — see the counterexample.) -/
theorem detect_confidence_bounds_and_empty_page (d : DomFacts) (url : List Char) :
    (detectSiteType d url).confidence
        = min (((pickWinner (scoreEntries d url)).2 : ℚ) / 100) 1
    ∧ 0 ≤ (detectSiteType d url).confidence
    ∧ (detectSiteType d url).confidence ≤ 1
    ∧ (d = zeroDom → urlBlog url = false → urlDocs url = false →
        urlShop url = false → urlNews url = false → urlForum url = false →
        detectSiteType d url
          = ⟨.unknown, 0, [], getChunkingStrategy .unknown⟩) := by
  refine ⟨rfl, ?_, ?_, ?_⟩
  · refine le_min ?_ ?_
    · positivity
    · norm_num
  · exact min_le_right _ _
  · intro hd hb hdoc hs hn hf
    subst hd
    unfold detectSiteType
    have hw : pickWinner (scoreEntries zeroDom url) = (.unknown, 0) := by
      simp [pickWinner, scoreEntries, blogScore, docScore, ecomScore,
        marketingScore, newsScore, forumScore, zeroDom, hb, hdoc, hs, hn, hf]
    rw [hw]
    simp [indicatorsOf, blogIndicators, docIndicators, ecomIndicators,
      marketingIndicators, newsIndicators, forumIndicators, zeroDom,
      hb, hdoc, hs, hn, hf]

/-- Witness for C5: a URL with no content-type patterns. -/
theorem detect_confidence_bounds_and_empty_page_witness :
    detectSiteType zeroDom "https://x.invalid/".toList
      = ⟨.unknown, 0, [], getChunkingStrategy .unknown⟩ :=
  (detect_confidence_bounds_and_empty_page zeroDom "https://x.invalid/".toList).2.2.2
    rfl (by decide) (by decide) (by decide) (by decide) (by decide)

/-- Counterexample to C5 as stated: the URL-pattern indicators do not need
any HTML, so the empty HTML document with the URL
`https://example.com/blog` is classified `blog` with confidence `0.15` and
one indicator — not `unknown` with confidence `0` and no indicators. -/
theorem detect_empty_html_blog_url :
    (detectSiteType zeroDom "https://example.com/blog".toList).type = .blog
    ∧ (detectSiteType zeroDom "https://example.com/blog".toList).confidence = 3 / 20
    ∧ (detectSiteType zeroDom "https://example.com/blog".toList).indicators
        = ["Blog-related URL"] := by
  refine ⟨by decide, ?_, by decide⟩
  show min ((15 : ℚ) / 100) 1 = 3 / 20
  norm_num

theorem crawlStepFull_inv (env : CrawlEnv) (t : Nat) (s : CrawlState)
    (h1 : s.pages.Nodup) (h2 : ∀ p ∈ s.pages, p ∈ s.visited) :
    (crawlStepFull env t s).1.pages.Nodup
    ∧ ∀ p ∈ (crawlStepFull env t s).1.pages, p ∈ (crawlStepFull env t s).1.visited := by
  unfold crawlStepFull
  split
  · exact ⟨h1, h2⟩
  · next current rest hq =>
      split
      · exact ⟨h1, h2⟩
      · next hvis =>
          have hcur : current ∉ s.visited := by
            intro hm
            exact hvis (by simpa [List.contains, List.elem_iff] using hm)
          split
          · exact ⟨h1, h2⟩
          · next links hfetch =>
              dsimp only
              constructor
              · rw [List.nodup_append]
                refine ⟨h1, List.nodup_singleton _, ?_⟩
                intro p hp hp'
                have hpc : p = current := by simpa using hp'
                subst hpc
                exact hcur (h2 p hp)
              · intro p hp
                rcases List.mem_append.mp hp with h | h
                · exact List.mem_append_left _ (h2 p h)
                · exact List.mem_append_right _ h

theorem crawlRun_inv (env : CrawlEnv) (maxPages : Nat) :
    ∀ (fuel t : Nat) (s : CrawlState),
      s.pages.Nodup → (∀ p ∈ s.pages, p ∈ s.visited) →
      (crawlRun env maxPages fuel t s).pages.Nodup
      ∧ ∀ p ∈ (crawlRun env maxPages fuel t s).pages,
          p ∈ (crawlRun env maxPages fuel t s).visited := by
  intro fuel
  induction fuel with
  | zero => intro t s h1 h2; exact ⟨h1, h2⟩
  | succ f ih =>
      intro t s h1 h2
      rw [crawlRun]
      split
      · exact ⟨h1, h2⟩
      · have hstep := crawlStepFull_inv env t s h1 h2
        exact ih (t + 1) _ hstep.1 hstep.2

/-- C6: no URL string is scraped twice in one crawl run (from any seed
frontier, for any fetch outcomes, any link resolution and any priorities, at
any point of the loop), and the batch of links an iteration enqueues never
contains a URL that is in the visited set after that iteration (the enqueue
filter checks the visited set, which already holds the page just scraped). -/
theorem crawl_no_dup_pages_no_reenqueue :
    (∀ (env : CrawlEnv) (maxPages fuel : Nat) (q0 : List String),
        ((crawlRun env maxPages fuel 0 ⟨q0, [], []⟩).pages).Nodup)
    ∧ (∀ (env : CrawlEnv) (t : Nat) (s : CrawlState) (u : String),
        u ∈ (crawlStepFull env t s).2 → u ∉ (crawlStepFull env t s).1.visited) := by
  constructor
  · intro env maxPages fuel q0
    exact (crawlRun_inv env maxPages fuel 0 ⟨q0, [], []⟩ (by simp) (by simp)).1
  · intro env t s u hu hvisited
    revert hu hvisited
    unfold crawlStepFull
    split
    · simp
    · next current rest hq =>
        split
        · simp
        · split
          · simp
          · next links hfetch =>
              dsimp only
              intro hu hvisited
              have h1 := List.mem_filter.mp hu
              have h2 := sortDescBy_mem env.priority _ u h1.1
              have h3 := (List.mem_filter.mp h2).2
              rw [Bool.and_eq_true] at h3
              have h4 : (s.visited ++ [current]).contains u = false := by
                simpa using h3.2
              rw [List.contains, ← Bool.not_eq_true, List.elem_iff] at h4
              exact h4 hvisited

/-- Witness for C6: one concrete scraping step that enqueues a link. -/
theorem crawl_no_dup_pages_no_reenqueue_witness :
    ("http://a/x" ∈ (crawlStepFull
        ⟨fun _ _ => some ["http://a/x"], fun l _ => some l, fun _ => true, fun _ => 0⟩
        0 ⟨["http://a/seed"], [], []⟩).2)
    ∧ "http://a/x" ∉ (crawlStepFull
        ⟨fun _ _ => some ["http://a/x"], fun l _ => some l, fun _ => true, fun _ => 0⟩
        0 ⟨["http://a/seed"], [], []⟩).1.visited := by
  constructor
  · decide
  · exact crawl_no_dup_pages_no_reenqueue.2 _ 0 _ "http://a/x" (by decide)

/-- C8: on a completed website, when the accepted user message has been
stored and the completion provider then fails, the handler reports a server
error to the caller, yet the user's message stays persisted (only the
assistant reply is absent): the `create` for the user row is awaited before
`generateResponse` and the surrounding `catch` rolls nothing back. -/
theorem chat_failure_persists_user_message (message err : String)
    (msgs : List ChatMsg) (h : jsTrim message.toList ≠ []) :
    postMessage (some "completed") message (.error err) msgs
      = (.serverError, msgs ++ [⟨"user", message⟩]) := by
  unfold postMessage
  rw [if_neg h]
  simp

/-- Witness for C8: a concrete failing chat turn. -/
theorem chat_failure_persists_user_message_witness :
    postMessage (some "completed") "hello" (.error "provider down") []
      = (.serverError, [⟨"user", "hello"⟩]) :=
  chat_failure_persists_user_message "hello" "provider down" [] (by decide)

theorem foldl_add_shift (l : List ℚ) (c : ℚ) :
    l.foldl (· + ·) c = c + l.foldl (· + ·) 0 := by
  induction l generalizing c with
  | nil => simp
  | cons x t ih =>
      rw [List.foldl_cons, List.foldl_cons, ih (c + x), ih (0 + x)]
      ring

theorem sumSq_cons (x : ℚ) (t : List ℚ) : sumSq (x :: t) = x * x + sumSq t := by
  unfold sumSq
  rw [List.map_cons, List.foldl_cons, foldl_add_shift]
  simp

theorem sumSq_nonneg (a : List ℚ) : 0 ≤ sumSq a := by
  induction a with
  | nil => simp [sumSq]
  | cons x t ih =>
      rw [sumSq_cons]
      have := mul_self_nonneg x
      linarith

theorem sumSq_eq_zero (a : List ℚ) (h : sumSq a = 0) : ∀ x ∈ a, x = 0 := by
  induction a with
  | nil => simp
  | cons x t ih =>
      rw [sumSq_cons] at h
      have h1 := mul_self_nonneg x
      have h2 := sumSq_nonneg t
      have hx : x * x = 0 := by linarith
      have ht : sumSq t = 0 := by linarith
      intro y hy
      rcases List.mem_cons.mp hy with h' | h'
      · subst h'
        exact (mul_self_eq_zero).mp hx
      · exact ih ht y h'

theorem jsDot_zero_left (a b : List ℚ) (h : ∀ x ∈ a, x = 0) : jsDot a b = 0 := by
  unfold jsDot
  induction a generalizing b with
  | nil => simp
  | cons x t ih =>
      cases b with
      | nil => simp
      | cons y u =>
          rw [List.zipWith_cons_cons, List.foldl_cons, foldl_add_shift]
          rw [h x (List.mem_cons_self _ _), ih u (fun z hz => h z (List.mem_cons_of_mem _ hz))]
          ring

theorem jsDot_zero_right (a b : List ℚ) (h : ∀ x ∈ b, x = 0) : jsDot a b = 0 := by
  unfold jsDot
  induction a generalizing b with
  | nil => simp
  | cons x t ih =>
      cases b with
      | nil => simp
      | cons y u =>
          rw [List.zipWith_cons_cons, List.foldl_cons, foldl_add_shift]
          rw [h y (List.mem_cons_self _ _), ih u (fun z hz => h z (List.mem_cons_of_mem _ hz))]
          ring

/-- C10: `cosineSimilarity` has no zero-magnitude guard — whenever either
vector has zero magnitude (e.g. an all-zero vector), the computed denominator
`magnitudeA * magnitudeB` is `0` while the dot product is also `0`, so the
IEEE division `0/0` returns `NaN`, which then flows unchecked into the
similarity values `findRelevantChunks` sorts. -/
theorem cosine_zero_magnitude_nan (a b : List ℚ)
    (h : sumSq a = 0 ∨ sumSq b = 0) :
    cosineSimilarity a b = .nan := by
  unfold cosineSimilarity
  have hm2 : sumSq a * sumSq b = 0 := by
    rcases h with h | h <;> rw [h] <;> ring
  have hdp : jsDot a b = 0 := by
    rcases h with h | h
    · exact jsDot_zero_left a b (sumSq_eq_zero a h)
    · exact jsDot_zero_right a b (sumSq_eq_zero b h)
  simp [hm2, hdp]

/-- Witness for C10: the all-zero query vector against a unit vector. -/
theorem cosine_zero_magnitude_nan_witness :
    cosineSimilarity [0, 0, 0] [1, 0, 0] = .nan :=
  cosine_zero_magnitude_nan [0, 0, 0] [1, 0, 0] (Or.inl (by norm_num [sumSq]))
